import Mathlib

/-!
Verification of the web-clipper content-extraction and formatting core.

The JavaScript sources are shallowly embedded: JS strings become `List Char`,
DOM subtrees become the inductive `Dom` tree, already-parsed JSON-LD blocks
become the inductive `Json` value, and each extraction / formatting function
of `src/scripts/content.js` and `src/scripts/tana-local-api.js` is translated
into an executable Lean definition with the same structure.
-/

namespace WebClipper

/-- Whitespace as recognised by JavaScript's `\s`, `trim()` and friends,
restricted to the ASCII whitespace characters (the sources only ever
manipulate ASCII whitespace). -/
def isJsWs (c : Char) : Bool :=
  c = ' ' ∨ c = '\t' ∨ c = '\n' ∨ c = '\r' ∨ c = '\x0b' ∨ c = '\x0c'

/-- The characters matched by the character class `[\r\n]`. -/
def isNl (c : Char) : Bool := c = '\r' ∨ c = '\n'

/-- JavaScript `String.prototype.trim()`: drop whitespace from both ends. -/
def jsTrim (s : List Char) : List Char :=
  List.rdropWhile isJsWs (List.dropWhile isJsWs s)

/-- JavaScript `s.replace(/[\r\n]+/g, ' ')`: every maximal run of carriage
returns / line feeds is replaced by a single space. -/
def collapseNl : List Char → List Char
  | [] => []
  | [c] => if isNl c then [' '] else [c]
  | c1 :: c2 :: rest =>
    if isNl c1 then
      (if isNl c2 then collapseNl (c2 :: rest) else ' ' :: collapseNl (c2 :: rest))
    else c1 :: collapseNl (c2 :: rest)

/-- JavaScript `s.replace(/\s+/g, ' ')`: every maximal whitespace run is
replaced by a single space. -/
def collapseWs : List Char → List Char
  | [] => []
  | [c] => if isJsWs c then [' '] else [c]
  | c1 :: c2 :: rest =>
    if isJsWs c1 then
      (if isJsWs c2 then collapseWs (c2 :: rest) else ' ' :: collapseWs (c2 :: rest))
    else c1 :: collapseWs (c2 :: rest)

/-- `TanaPasteBuilder.sanitizeForTanaPaste` (tana-local-api.js:329-331):
`text.replace(/[\r\n]+/g, ' ').trim()`. -/
def sanitizeForTanaPaste (text : List Char) : List Char :=
  jsTrim (collapseNl text)

/-- `TanaClient.sanitizeNodeName` (tana-local-api.js:897-900), textually the
same body as `sanitizeForTanaPaste`. -/
def sanitizeNodeName (text : List Char) : List Char :=
  jsTrim (collapseNl text)

/-- `cleanText` (content.js:297-299): `text.replace(/\s+/g, ' ').trim()`. -/
def cleanText (text : List Char) : List Char :=
  jsTrim (collapseWs text)

/-- Is `pat` a prefix of `s`. -/
def strStarts : List Char → List Char → Bool
  | [], _ => true
  | _ :: _, [] => false
  | p :: ps, c :: cs => p = c ∧ strStarts ps cs

/-- Search downwards from index `i` for the last position where `pat`
occurs in `s`; `-1` if there is none. -/
def jsLastIndexOfAux (s pat : List Char) : Nat → Int
  | 0 => if strStarts pat s then 0 else -1
  | i + 1 =>
    if strStarts pat (s.drop (i + 1)) then ((i : Int) + 1)
    else jsLastIndexOfAux s pat i

/-- JavaScript `s.lastIndexOf(pat, fromIndex)`: index of the last occurrence
of `pat` whose start is `≤ fromIndex`, or `-1`. -/
def jsLastIndexOf (s pat : List Char) (fromIndex : Nat) : Int :=
  jsLastIndexOfAux s pat (min fromIndex s.length)

/-- `TanaPasteBuilder.findBreakPoint` (tana-local-api.js:357-379).  The JS
comparison `breakPoint > maxLength / 2` on numbers is rendered as the
equivalent integer comparison `2 * breakPoint > maxLength`. -/
def findBreakPoint (text : List Char) (maxLength : Nat) : Nat :=
  let bp1 := jsLastIndexOf text ['\n', '\n'] maxLength
  if 2 * bp1 > (maxLength : Int) then bp1.toNat
  else
    let bp2 := jsLastIndexOf text ['\n'] maxLength
    if 2 * bp2 > (maxLength : Int) then bp2.toNat
    else
      let bp3 := jsLastIndexOf text ['.', ' '] maxLength
      if 2 * bp3 > (maxLength : Int) then bp3.toNat + 1
      else
        let bp4 := jsLastIndexOf text ['!', ' '] maxLength
        if 2 * bp4 > (maxLength : Int) then bp4.toNat + 1
        else
          let bp5 := jsLastIndexOf text ['?', ' '] maxLength
          if 2 * bp5 > (maxLength : Int) then bp5.toNat + 1
          else
            let bp6 := jsLastIndexOf text [' '] maxLength
            if 2 * bp6 > (maxLength : Int) then bp6.toNat
            else maxLength

/-- The body of the `while` loop of `TanaPasteBuilder.chunkContent`
(tana-local-api.js:336-352), with an explicit fuel argument standing for the
loop counter; one unit of fuel is spent per iteration.  `chunkContent` below
supplies enough fuel for the loop to run to completion whenever the bound is
at least 1 (claim C4). -/
def chunkGo (maxLength : Nat) : Nat → List Char → List (List Char)
  | 0, _ => []
  | fuel + 1, remaining =>
    if remaining.length = 0 then []
    else if remaining.length ≤ maxLength then [sanitizeForTanaPaste remaining]
    else
      sanitizeForTanaPaste (jsTrim (remaining.take (findBreakPoint remaining maxLength))) ::
        chunkGo maxLength fuel (jsTrim (remaining.drop (findBreakPoint remaining maxLength)))

/-- `TanaPasteBuilder.chunkContent` (tana-local-api.js:336-352), generalised
over the length bound (the source fixes it to the configurable constant
`MAX_CONTENT_LENGTH`). -/
def chunkContent (content : List Char) (maxLength : Nat) : List (List Char) :=
  chunkGo maxLength (content.length + 1) content

/-- `MAX_CONTENT_LENGTH` (tana-local-api.js:5). -/
def MAX_CONTENT_LENGTH : Nat := 4500

/-- One attempt of the global regex `/\s+and\s+/gi` at the start of `s`:
one or more whitespace characters, then `and` case-insensitively, then one
or more whitespace characters (consumed greedily).  Returns the remainder
after the match, or `none` when the regex does not match here. -/
def matchAndConn (s : List Char) : Option (List Char) :=
  if (s.takeWhile isJsWs).length = 0 then none
  else
    match s.dropWhile isJsWs with
    | a :: n :: d :: tail =>
      if a.toLower = 'a' ∧ n.toLower = 'n' ∧ d.toLower = 'd' then
        match tail with
        | t :: _ => if isJsWs t then some (tail.dropWhile isJsWs) else none
        | [] => none
      else none
    | _ => none

/-- `s.replace(/\s+and\s+/gi, ', ')`, scanning left to right; the fuel is a
step counter (each step consumes at least one character, so `s.length` units
of fuel in `replaceAnd` always suffice). -/
def replaceAndGo : Nat → List Char → List Char
  | 0, s => s
  | _ + 1, [] => []
  | fuel + 1, c :: rest =>
    match matchAndConn (c :: rest) with
    | some r => ',' :: ' ' :: replaceAndGo fuel r
    | none => c :: replaceAndGo fuel rest

/-- `normalized.replace(/\s+and\s+/gi, ', ')` (tana-local-api.js:386). -/
def replaceAnd (s : List Char) : List Char := replaceAndGo s.length s

/-- One attempt of the global regex `/\s*&\s*/g` at the start of `s`:
optional whitespace, an ampersand, optional whitespace. -/
def matchAmp (s : List Char) : Option (List Char) :=
  match s.dropWhile isJsWs with
  | '&' :: tail => some (tail.dropWhile isJsWs)
  | _ => none

/-- `s.replace(/\s*&\s*/g, ', ')`, scanning left to right with fuel. -/
def replaceAmpGo : Nat → List Char → List Char
  | 0, s => s
  | _ + 1, [] => []
  | fuel + 1, c :: rest =>
    match matchAmp (c :: rest) with
    | some r => ',' :: ' ' :: replaceAmpGo fuel r
    | none => c :: replaceAmpGo fuel rest

/-- `normalized.replace(/\s*&\s*/g, ', ')` (tana-local-api.js:387). -/
def replaceAmp (s : List Char) : List Char := replaceAmpGo s.length s

/-- `TanaPasteBuilder.parseAuthors` (tana-local-api.js:384-393): trim,
normalise `and` / `&` connectives to commas, split on commas, trim each
piece and drop the empty ones.  (JavaScript `"".split(',')` yields `[""]`,
as `List.splitOn` does.) -/
def parseAuthors (authorString : List Char) : List (List Char) :=
  let n1 := jsTrim authorString
  let n2 := replaceAnd n1
  let n3 := replaceAmp n2
  ((n3.splitOn ',').map jsTrim).filter (fun a => 0 < a.length)

/-- Truthiness of an optional JS string: present and non-empty. -/
def otruthy : Option (List Char) → Bool
  | some v => v.length ≠ 0
  | none => false

/-- `TanaPasteBuilder.formatAuthorValue` (tana-local-api.js:274-291).
`Sum.inl` is the JS string return, `Sum.inr` the JS array return. -/
def formatAuthorValue (authorString : List Char) (authorTagName : Option (List Char)) :
    Sum (List Char) (List (List Char)) :=
  let authors := parseAuthors authorString
  if authors.length = 0 then Sum.inl (sanitizeForTanaPaste authorString)
  else
    let formatted := authors.map fun author =>
      let name := sanitizeForTanaPaste author
      if otruthy authorTagName then
        ("[[".data) ++ name ++ (" #[[".data) ++ authorTagName.getD [] ++ ("]]]]".data)
      else name
    match formatted with
    | [single] => Sum.inl single
    | _ => Sum.inr formatted

/-- Modelled from the environment: JavaScript `new Date(s)` followed by
`toISOString().split('T')[0]`, restricted to plain ISO `YYYY-MM-DD` calendar
dates (the only shape the claims exercise).  A valid date returns its
canonical `YYYY-MM-DD` rendering, anything else `none` (an invalid date
yields `NaN` in JS, which `formatDateValue` maps to `null`). -/
def jsParseDate (s : List Char) : Option (List Char) :=
  match s with
  | [y1, y2, y3, y4, '-', m1, m2, '-', d1, d2] =>
    if y1.isDigit ∧ y2.isDigit ∧ y3.isDigit ∧ y4.isDigit ∧
        m1.isDigit ∧ m2.isDigit ∧ d1.isDigit ∧ d2.isDigit then
      let y := ((y1.toNat - 48) * 1000 + (y2.toNat - 48) * 100 +
        (y3.toNat - 48) * 10 + (y4.toNat - 48))
      let m := (m1.toNat - 48) * 10 + (m2.toNat - 48)
      let d := (d1.toNat - 48) * 10 + (d2.toNat - 48)
      let leap := (y % 4 = 0 ∧ y % 100 ≠ 0) ∨ y % 400 = 0
      let dim : Nat :=
        if m = 2 then (if leap then 29 else 28)
        else if m = 4 ∨ m = 6 ∨ m = 9 ∨ m = 11 then 30
        else 31
      if 1 ≤ m ∧ m ≤ 12 ∧ 1 ≤ d ∧ d ≤ dim then some s else none
    else none
  | _ => none

/-- `TanaPasteBuilder.formatDateValue` (tana-local-api.js:296-306): a
parsable date becomes a single `[[date:YYYY-MM-DD]]` token, an unparsable
one becomes `null` (the `catch` branch included). -/
def formatDateValue (dateStr : List Char) : Option (List Char) :=
  match jsParseDate dateStr with
  | some iso => some (("[[date:".data) ++ iso ++ ("]]".data))
  | none => none

/-- `TanaPasteBuilder.formatUrlValue` (tana-local-api.js:311-313):
a markdown link `[label](url)` whose label is the sanitised title, falling
back to the URL itself when the title is falsy. -/
def formatUrlValue (title : Option (List Char)) (url : List Char) : List Char :=
  let label := match title with
    | some t => if t.length ≠ 0 then t else url
    | none => url
  ("[".data) ++ sanitizeForTanaPaste label ++ ("](".data) ++ url ++ (")".data)

/-- `TanaPasteBuilder.formatPublicationValue` (tana-local-api.js:318-324). -/
def formatPublicationValue (name : List Char) (tagName : Option (List Char)) : List Char :=
  let sanitized := sanitizeForTanaPaste name
  if otruthy tagName then
    ("[[".data) ++ sanitized ++ (" #[[".data) ++ tagName.getD [] ++ ("]]]]".data)
  else sanitized

/-- The metadata record assembled by `extractMetadata` (content.js:12-23),
restricted to the fields `buildClip` reads. -/
structure Metadata where
  author : Option (List Char)
  url : Option (List Char)
  publishedDate : Option (List Char)
  publication : Option (List Char)

/-- The `fieldMappings` configuration object read by `buildClip`. -/
structure FieldMappings where
  authorFieldName : Option (List Char)
  authorType : List Char
  authorTagName : Option (List Char)
  urlFieldName : Option (List Char)
  dateFieldName : Option (List Char)
  publicationFieldName : Option (List Char)
  publicationType : List Char
  publicationTagName : Option (List Char)

/-- The argument object of `TanaPasteBuilder.buildClip`. -/
structure ClipInput where
  title : Option (List Char)
  content : List (List Char)
  metadata : Metadata
  tagName : List Char
  tagId : Option (List Char)
  fieldMappings : Option FieldMappings
  isSelection : Bool

/-- The author block of `buildClip` (tana-local-api.js:211-224): a single
formatted value becomes one `field:: value` line, an array becomes a
`field::` header plus one indented line per author. -/
def authorFieldLines (fm : FieldMappings) (md : Metadata) : List (List Char) :=
  if otruthy md.author ∧ otruthy fm.authorFieldName then
    let authorLines := formatAuthorValue (md.author.getD [])
      (if fm.authorType = ("reference".data) then fm.authorTagName else none)
    match authorLines with
    | Sum.inr arr =>
      (("  - ".data) ++ fm.authorFieldName.getD [] ++ ("::".data)) ::
        arr.map (fun line => ("    - ".data) ++ line)
    | Sum.inl s => [("  - ".data) ++ fm.authorFieldName.getD [] ++ (":: ".data) ++ s]
  else []

/-- The URL block of `buildClip` (tana-local-api.js:227-229). -/
def urlFieldLines (fm : FieldMappings) (title : Option (List Char)) (md : Metadata) :
    List (List Char) :=
  if otruthy md.url ∧ otruthy fm.urlFieldName then
    [("  - ".data) ++ fm.urlFieldName.getD [] ++ (":: ".data) ++
      formatUrlValue title (md.url.getD [])]
  else []

/-- The published-date block of `buildClip` (tana-local-api.js:232-237): the
line is only emitted when `formatDateValue` succeeds. -/
def dateFieldLines (fm : FieldMappings) (md : Metadata) : List (List Char) :=
  if otruthy md.publishedDate ∧ otruthy fm.dateFieldName then
    match formatDateValue (md.publishedDate.getD []) with
    | some v => [("  - ".data) ++ fm.dateFieldName.getD [] ++ (":: ".data) ++ v]
    | none => []
  else []

/-- The publication block of `buildClip` (tana-local-api.js:240-246). -/
def pubFieldLines (fm : FieldMappings) (md : Metadata) : List (List Char) :=
  if otruthy md.publication ∧ otruthy fm.publicationFieldName then
    [("  - ".data) ++ fm.publicationFieldName.getD [] ++ (":: ".data) ++
      formatPublicationValue (md.publication.getD [])
        (if fm.publicationType = ("reference".data) then fm.publicationTagName else none)]
  else []

/-- The content block of `buildClip` (tana-local-api.js:250-265): each
paragraph is sanitised, dropped if empty, chunked when longer than
`MAX_CONTENT_LENGTH`, and emitted as `  - ` lines. -/
def contentLines (content : List (List Char)) : List (List Char) :=
  (content.map fun paragraph =>
    let sanitized := sanitizeForTanaPaste paragraph
    if sanitized.length ≠ 0 then
      if sanitized.length > MAX_CONTENT_LENGTH then
        (chunkContent sanitized MAX_CONTENT_LENGTH).map (fun chunk => ("  - ".data) ++ chunk)
      else [("  - ".data) ++ sanitized]
    else []).flatten

/-- `TanaPasteBuilder.buildClip` (tana-local-api.js:196-268) as the list of
lines it accumulates; `buildClip` joins them with newlines. -/
def buildClipLines (input : ClipInput) : List (List Char) :=
  let sanitizedTitle := sanitizeForTanaPaste (match input.title with
    | some t => if t.length ≠ 0 then t else ("Untitled".data)
    | none => ("Untitled".data))
  let nodeName :=
    if input.isSelection then ("Selection from: ".data) ++ sanitizedTitle else sanitizedTitle
  let headLine :=
    if otruthy input.tagId then
      ("- ".data) ++ nodeName ++ (" #[[".data) ++ input.tagName ++ ("^".data) ++
        input.tagId.getD [] ++ ("]]".data)
    else ("- ".data) ++ nodeName
  let fieldLines := match input.fieldMappings with
    | some fm =>
      authorFieldLines fm input.metadata ++ urlFieldLines fm input.title input.metadata ++
        dateFieldLines fm input.metadata ++ pubFieldLines fm input.metadata
    | none => []
  ((("%%tana%%".data) :: headLine :: fieldLines) ++ contentLines input.content)

/-- `TanaPasteBuilder.buildClip` final `lines.join('\n')`. -/
def buildClip (input : ClipInput) : List Char :=
  List.intercalate ['\n'] (buildClipLines input)

/-- A fixed `buildClip` input used to probe the date field: only the title
and the published date are set, and only the date field is mapped. -/
def dateProbeClip (pd : List Char) : ClipInput :=
  { title := some ("T".data), content := [],
    metadata :=
      { author := none, url := none, publishedDate := some pd, publication := none },
    tagName := [], tagId := none,
    fieldMappings := some
      { authorFieldName := none, authorType := [], authorTagName := none,
        urlFieldName := none, dateFieldName := some ("Date".data),
        publicationFieldName := none, publicationType := [],
        publicationTagName := none },
    isSelection := false }

/-- A fixed `buildClip` input used to probe the author field: only the title
and a two-author author string are set, and only the author field is mapped,
with the given author field type and reference tag. -/
def authorProbeClip (authorType : List Char) (authorTagName : Option (List Char)) :
    ClipInput :=
  { title := some ("T".data), content := [],
    metadata :=
      { author := some ("A, B".data), url := none, publishedDate := none,
        publication := none },
    tagName := [], tagId := none,
    fieldMappings := some
      { authorFieldName := some ("Author".data), authorType := authorType,
        authorTagName := authorTagName, urlFieldName := none, dateFieldName := none,
        publicationFieldName := none, publicationType := [],
        publicationTagName := none },
    isSelection := false }

/-- A JSON value as relevant to the JSON-LD handling of content.js
(strings, arrays and objects; `null` stands for the falsy values). -/
inductive Json where
  | null
  | str (s : List Char)
  | arr (elems : List Json)
  | obj (fields : List (List Char × Json))

/-- JavaScript truthiness of a `Json` value. -/
def Json.truthy : Json → Bool
  | .null => false
  | .str s => s.length ≠ 0
  | .arr _ => true
  | .obj _ => true

/-- JavaScript property access `j[k]`; `none` models `undefined`. -/
def Json.getProp : Json → List Char → Option Json
  | .obj fields, k => List.lookup k fields
  | _, _ => none

/-- The `@type` test of `getJsonLd` (content.js:254-265):
`item['@type'] === 'Article' | 'NewsArticle' | 'BlogPosting'`. -/
def isArticleType (j : Json) : Bool :=
  match j.getProp ("@type".data) with
  | some (.str t) =>
    t = ("Article".data) ∨ t = ("NewsArticle".data) ∨ t = ("BlogPosting".data)
  | _ => false

/-- The per-script body of `getJsonLd` (content.js:248-270) applied to one
already-parsed JSON-LD block: a truthy `@graph` array is searched for the
first article entry; a truthy non-array `@graph` makes `.find` throw, which
the `catch` turns into skipping the block; otherwise the block itself is
accepted when its own `@type` matches. -/
def getJsonLdBlock (data : Json) : Option Json :=
  match data.getProp ("@graph".data) with
  | some g =>
    if g.truthy then
      match g with
      | .arr items =>
        match items.find? isArticleType with
        | some article => some article
        | none => if isArticleType data then some data else none
      | _ => none
    else if isArticleType data then some data else none
  | none => if isArticleType data then some data else none

/-- `getJsonLd` (content.js:245-274) over the page's parsed JSON-LD script
blocks (JSON parsing itself is ambient JS and is represented by the blocks
already being `Json` values). -/
def getJsonLd (blocks : List Json) : Option Json :=
  blocks.findSome? getJsonLdBlock

/-- `isUrl` (content.js:109-116), modelled from the environment for the
common case: `new URL(str)` succeeds with an `http:`/`https:` protocol
exactly on strings of the form `http://host...` / `https://host...` with a
non-empty remainder. -/
def isUrl (s : List Char) : Bool :=
  (strStarts ("http://".data) s ∧ 7 < s.length) ∨
    (strStarts ("https://".data) s ∧ 8 < s.length)

/-- The `pathname` of a simple `http(s)` URL: everything from the first `/`
after the authority up to a query or fragment. -/
def urlPathname (url : List Char) : List Char :=
  let afterScheme :=
    if strStarts ("https://".data) url then url.drop 8 else url.drop 7
  (afterScheme.dropWhile (fun c => c ≠ '/')).takeWhile (fun c => c ≠ '?' ∧ c ≠ '#')

/-- `word.charAt(0).toUpperCase() + word.slice(1).toLowerCase()`
(content.js:133). -/
def capitalizeWord : List Char → List Char
  | [] => []
  | c :: rest => c.toUpper :: rest.map Char.toLower

/-- `extractAuthorFromUrl` (content.js:121-140): split the URL path into
non-empty segments, look for a `by`/`author`/`authors` marker, and convert
the following slug segment into capitalised space-separated words; the
`catch` of an invalid URL yields `none`. -/
def extractAuthorFromUrl (url : List Char) : Option (List Char) :=
  if isUrl url then
    let pathParts := ((urlPathname url).splitOn '/').filter (fun p => 0 < p.length)
    match pathParts.findIdx?
        (fun p => p = ("by".data) ∨ p = ("author".data) ∨ p = ("authors".data)) with
    | some byIndex =>
      match pathParts[byIndex + 1]? with
      | some slug =>
        some (List.intercalate [' '] ((slug.splitOn '-').map capitalizeWord))
      | none => none
    | none => none
  else none

/-- The JSON-LD author source of `extractAuthor` (content.js:51-66). -/
def authorFromJsonLd (blocks : List Json) : Option (List Char) :=
  match getJsonLd blocks with
  | none => none
  | some jsonLd =>
    match jsonLd.getProp ("author".data) with
    | none => none
    | some author =>
      if author.truthy then
        match author with
        | .str s => if isUrl s = false then some s else none
        | .obj fields =>
          (match List.lookup ("name".data) fields with
           | some (.str nm) => if nm.length ≠ 0 then some nm else none
           | _ => none)
        | .arr elems =>
          let names := (elems.filterMap (fun a =>
            match a with
            | .str s => some s
            | .obj fields =>
              (match List.lookup ("name".data) fields with
               | some (.str nm) => some nm
               | _ => none)
            | _ => none)).filter (fun nm => nm.length ≠ 0 ∧ isUrl nm = false)
          if 0 < names.length then some (List.intercalate (", ".data) names) else none
        | .null => none
      else none

/-- The document fields probed by `extractAuthor` (content.js:48-104): the
parsed JSON-LD blocks and the raw value of each queried meta tag / element,
`none` when the document has no such node. -/
structure AuthorDoc where
  jsonLdBlocks : List Json
  metaAuthor : Option (List Char)
  metaArticleAuthor : Option (List Char)
  twitterCreator : Option (List Char)
  relAuthorText : Option (List Char)
  authorNameText : Option (List Char)
  bylineText : Option (List Char)
  itempropAuthorText : Option (List Char)

/-- `value.replace(/^by\s+/i, '')` (content.js:90): strip one leading `by`
(case-insensitive) followed by at least one whitespace character. -/
def dropLeadingBy (s : List Char) : List Char :=
  match s with
  | b :: y :: rest =>
    if b.toLower = 'b' ∧ y.toLower = 'y' ∧ rest.head?.any isJsWs then
      rest.dropWhile isJsWs
    else s
  | _ => s

/-- The ordered source closures of `extractAuthor` (content.js:49-92), each
already evaluated to its returned value (`none` both for `null` and for a
thrown-and-caught exception). -/
def authorSources (doc : AuthorDoc) : List (Option (List Char)) :=
  [ authorFromJsonLd doc.jsonLdBlocks,
    (match doc.metaAuthor with
     | some v => if v.length ≠ 0 ∧ isUrl v = false then some v else none
     | none => none),
    (match doc.metaArticleAuthor with
     | none => none
     | some v =>
       if v.length = 0 then none
       else if isUrl v = false then some v
       else extractAuthorFromUrl v),
    (match doc.twitterCreator with
     | some v => if v.length ≠ 0 ∧ isUrl v = false then some v else none
     | none => none),
    doc.relAuthorText.map jsTrim,
    doc.authorNameText.map jsTrim,
    doc.bylineText.map (fun v => dropLeadingBy (jsTrim v)),
    doc.itempropAuthorText.map jsTrim ]

/-- The source loop of `extractAuthor` (content.js:94-101): the first truthy
source value is returned through `cleanText`. -/
def pickAuthor : List (Option (List Char)) → Option (List Char)
  | [] => none
  | none :: rest => pickAuthor rest
  | some v :: rest => if v.length ≠ 0 then some (cleanText v) else pickAuthor rest

/-- `extractAuthor` (content.js:48-104). -/
def extractAuthor (doc : AuthorDoc) : Option (List Char) :=
  pickAuthor (authorSources doc)

/-- The document fields probed by `extractPublication` (content.js:145-179). -/
structure PubDoc where
  ogSiteName : Option (List Char)
  jsonLdBlocks : List Json
  applicationName : Option (List Char)
  hostname : List Char

/-- The JSON-LD publisher source of `extractPublication`
(content.js:150-157): a truthy string publisher, or a truthy `name` string
of a publisher object; a truthy non-string value would make the outer
`value.trim()` throw, which the `catch` turns into `none`. -/
def publisherFromJsonLd (blocks : List Json) : Option (List Char) :=
  match getJsonLd blocks with
  | none => none
  | some jsonLd =>
    match jsonLd.getProp ("publisher".data) with
    | none => none
    | some p =>
      if p.truthy then
        match p with
        | .str s => some s
        | .obj fields =>
          (match List.lookup ("name".data) fields with
           | some (.str nm) => if nm.length ≠ 0 then some nm else none
           | _ => none)
        | _ => none
      else none

/-- `hostname.replace(/^www\./, '')` (content.js:165). -/
def stripWww (hostname : List Char) : List Char :=
  if strStarts ("www.".data) hostname then hostname.drop 4 else hostname

/-- The source loop of `extractPublication` (content.js:169-176): the first
truthy source value is returned trimmed. -/
def pickTrimmed : List (Option (List Char)) → Option (List Char)
  | [] => none
  | none :: rest => pickTrimmed rest
  | some v :: rest => if v.length ≠ 0 then some (jsTrim v) else pickTrimmed rest

/-- `extractPublication` (content.js:145-179). -/
def extractPublication (doc : PubDoc) : Option (List Char) :=
  pickTrimmed
    [ doc.ogSiteName,
      publisherFromJsonLd doc.jsonLdBlocks,
      doc.applicationName,
      some (stripWww doc.hostname) ]

/-- A detached DOM subtree: text nodes and element nodes with a (lower-case)
tag name and ordered children. -/
inductive Dom where
  | text (s : List Char)
  | elem (tag : List Char) (children : List Dom)

mutual
/-- `node.textContent`: concatenation of all descendant text, in order. -/
def textContent : Dom → List Char
  | .text s => s
  | .elem _ cs => textContentList cs
/-- `textContent` over a child list. -/
def textContentList : List Dom → List Char
  | [] => []
  | d :: ds => textContent d ++ textContentList ds
end

/-- The paragraph-like selectors of `extractParagraphs` (content.js:363):
`p, h1, h2, h3, h4, h5, h6, li, blockquote, pre`. -/
def isParaTag (t : List Char) : Bool :=
  t = ("p".data) ∨ t = ("h1".data) ∨ t = ("h2".data) ∨ t = ("h3".data) ∨
    t = ("h4".data) ∨ t = ("h5".data) ∨ t = ("h6".data) ∨ t = ("li".data) ∨
    t = ("blockquote".data) ∨ t = ("pre".data)

/-- The exclusion selectors of the `el.closest` check (content.js:368):
`script, style, noscript, nav, header, footer`. -/
def isExcludedTag (t : List Char) : Bool :=
  t = ("script".data) ∨ t = ("style".data) ∨ t = ("noscript".data) ∨
    t = ("nav".data) ∨ t = ("header".data) ∨ t = ("footer".data)

mutual
/-- Pre-order collection of the `textContent` of every paragraph-like
descendant element, as `element.querySelectorAll(paragraphSelectors)`
enumerates them in document order; `excluded` records whether an ancestor
(the enclosing container included) matches the exclusion selectors, which is
what the `el.closest(...)` skip (content.js:368) tests. -/
def collectParaTexts (excluded : Bool) : Dom → List (List Char)
  | .text _ => []
  | .elem t cs =>
    (if isParaTag t ∧ excluded = false then [textContentList cs] else []) ++
      collectParaTextsList (excluded || isExcludedTag t) cs
/-- `collectParaTexts` over a child list. -/
def collectParaTextsList (excluded : Bool) : List Dom → List (List Char)
  | [] => []
  | d :: ds => collectParaTexts excluded d ++ collectParaTextsList excluded ds
end

/-- The node list produced by
`element.querySelectorAll(paragraphSelectors)` on a container element —
the descendants only, in document order — with the container's own tag
participating in the ancestor exclusion check. -/
def paraTexts (element : Dom) : List (List Char) :=
  match element with
  | .text _ => []
  | .elem t cs => collectParaTextsList (isExcludedTag t) cs

/-- The element-collection pass of `extractParagraphs` (content.js:362-375):
each collected element contributes `cleanText` of its trimmed text content
when that trimmed text is longer than 10 characters. -/
def primaryParagraphs (element : Dom) : List (List Char) :=
  (paraTexts element).filterMap fun tc =>
    let text := jsTrim tc
    if 10 < text.length then some (cleanText text) else none

/-- The tags removed from the clone by `cleanHtmlToText` (content.js:453):
`script, style, noscript`. -/
def isScriptTag (t : List Char) : Bool :=
  t = ("script".data) ∨ t = ("style".data) ∨ t = ("noscript".data)

/-- The block-level tag set of `cleanHtmlToText` (content.js:465-468),
lower-cased. -/
def isBlockTag (t : List Char) : Bool :=
  t = ("p".data) ∨ t = ("div".data) ∨ t = ("br".data) ∨ t = ("h1".data) ∨
    t = ("h2".data) ∨ t = ("h3".data) ∨ t = ("h4".data) ∨ t = ("h5".data) ∨
    t = ("h6".data) ∨ t = ("li".data) ∨ t = ("tr".data) ∨
    t = ("blockquote".data) ∨ t = ("pre".data) ∨ t = ("hr".data)

mutual
/-- Removal of the script/style/noscript subtrees from a child list, as
`clone.querySelectorAll('script, style, noscript').forEach(el => el.remove())`
does (content.js:453). -/
def removeScripts : Dom → Option Dom
  | .text s => some (.text s)
  | .elem t cs => if isScriptTag t then none else some (.elem t (removeScriptsList cs))
/-- `removeScripts` over a child list. -/
def removeScriptsList : List Dom → List Dom
  | [] => []
  | d :: ds =>
    match removeScripts d with
    | some d2 => d2 :: removeScriptsList ds
    | none => removeScriptsList ds
end

mutual
/-- One step of the `TreeWalker` loop of `cleanHtmlToText`
(content.js:470-481): a non-empty trimmed text node appends its content plus
a space; entering a block-level element trims the accumulator and appends a
paragraph break. -/
def walkNode (acc : List Char) : Dom → List Char
  | .text s =>
    let content := jsTrim s
    if content.length ≠ 0 then acc ++ content ++ [' '] else acc
  | .elem t cs =>
    walkNodeList (if isBlockTag t then jsTrim acc ++ ['\n', '\n'] else acc) cs
/-- `walkNode` over a child list (the walker visits an element before its
descendants, in document order). -/
def walkNodeList (acc : List Char) : List Dom → List Char
  | [] => acc
  | d :: ds => walkNodeList (walkNode acc d) ds
end

/-- `text.replace(/\n{3,}/g, '\n\n')` (content.js:485): runs of three or
more line feeds collapse to exactly two. -/
def collapseNl3 : List Char → List Char
  | '\n' :: '\n' :: '\n' :: rest => collapseNl3 ('\n' :: '\n' :: rest)
  | c :: rest => c :: collapseNl3 rest
  | [] => []

/-- `text.replace(/ +/g, ' ')` (content.js:486): runs of spaces (spaces
only) collapse to one. -/
def collapseSpaceRuns : List Char → List Char
  | ' ' :: ' ' :: rest => collapseSpaceRuns (' ' :: rest)
  | c :: rest => c :: collapseSpaceRuns rest
  | [] => []

/-- `cleanHtmlToText` (content.js:448-488): prune script/style/noscript
from a clone, walk the remaining descendants accumulating text with
paragraph breaks, then collapse newline runs and space runs and trim. -/
def cleanHtmlToText (element : Dom) : List Char :=
  let raw := match element with
    | .text _ => []
    | .elem _ cs => walkNodeList [] (removeScriptsList cs)
  jsTrim (collapseSpaceRuns (collapseNl3 raw))

/-- `fullText.split(/\n\n+/)` (content.js:382): split on each maximal run of
two or more line feeds. -/
def splitBlankLines : List Char → List (List Char)
  | [] => [[]]
  | '\n' :: '\n' :: '\n' :: rest => splitBlankLines ('\n' :: '\n' :: rest)
  | '\n' :: '\n' :: rest => [] :: splitBlankLines rest
  | c :: rest =>
    match splitBlankLines rest with
    | p :: ps => (c :: p) :: ps
    | [] => [[c]]

/-- `extractParagraphs` (content.js:359-387): the element-collection pass,
falling back to the text-walk pass when it finds nothing. -/
def extractParagraphs (element : Dom) : List (List Char) :=
  let paragraphs := primaryParagraphs element
  if paragraphs.length = 0 then
    let fullText := cleanHtmlToText element
    if fullText.length ≠ 0 then
      (splitBlankLines fullText).filter (fun p => 10 < (jsTrim p).length)
    else paragraphs
  else paragraphs

end WebClipper


namespace WebClipper

/-! ### Basic properties of the text utilities -/

theorem jsTrim_sublist (s : List Char) : List.Sublist (jsTrim s) s := by
  have h1 : List.Sublist (jsTrim s) (List.dropWhile isJsWs s) :=
    (List.rdropWhile_prefix isJsWs (List.dropWhile isJsWs s)).sublist
  exact h1.trans (List.dropWhile_sublist isJsWs)

theorem jsTrim_length_le (s : List Char) : (jsTrim s).length ≤ s.length :=
  (jsTrim_sublist s).length_le

theorem mem_of_mem_jsTrim {c : Char} {s : List Char} (h : c ∈ jsTrim s) : c ∈ s :=
  (jsTrim_sublist s).subset h

theorem dropWhile_head_false {p : Char → Bool} :
    ∀ {s c t}, List.dropWhile p s = c :: t → p c = false := by
  intro s
  induction s with
  | nil => intro c t h; simp [List.dropWhile] at h
  | cons a as ih =>
    intro c t h
    rw [List.dropWhile_cons] at h
    by_cases hp : p a
    · rw [if_pos (by simp [hp])] at h
      exact ih h
    · rw [if_neg (by simpa using hp)] at h
      cases h
      simpa using hp

theorem jsTrim_head_false {s c t} (h : jsTrim s = c :: t) : isJsWs c = false := by
  unfold jsTrim at h
  obtain ⟨r, hr⟩ := List.rdropWhile_prefix isJsWs (List.dropWhile isJsWs s)
  rw [h] at hr
  exact dropWhile_head_false (p := isJsWs) (t := t ++ r) (by rw [← hr, List.cons_append])

theorem jsTrim_idem (s : List Char) : jsTrim (jsTrim s) = jsTrim s := by
  unfold jsTrim
  have hdw : List.dropWhile isJsWs
      (List.rdropWhile isJsWs (List.dropWhile isJsWs s)) =
      List.rdropWhile isJsWs (List.dropWhile isJsWs s) := by
    cases h : List.rdropWhile isJsWs (List.dropWhile isJsWs s) with
    | nil => simp
    | cons c t =>
      have hc : isJsWs c = false := jsTrim_head_false (s := s) (by rw [jsTrim, h])
      simp [List.dropWhile_cons, hc]
  rw [hdw, List.rdropWhile_idempotent]

theorem jsTrim_ne_nil {c : Char} {t : List Char} (hc : isJsWs c = false) :
    jsTrim (c :: t) ≠ [] := by
  unfold jsTrim
  rw [List.dropWhile_cons, if_neg (by simp [hc])]
  rw [Ne, List.rdropWhile_eq_nil_iff]
  intro h
  have := h c (by simp)
  simp [hc] at this

theorem not_nl_of_not_ws {c : Char} (h : isJsWs c = false) : isNl c = false := by
  simp [isJsWs, isNl] at h ⊢
  exact ⟨h.2.2.2.1, h.2.2.1⟩

theorem collapseNl_cons {c : Char} {t : List Char} (hc : isNl c = false) :
    collapseNl (c :: t) = c :: collapseNl t := by
  cases t with
  | nil => simp [collapseNl, hc]
  | cons c2 r => rw [collapseNl, if_neg (by simp [hc])]

theorem collapseWs_cons {c : Char} {t : List Char} (hc : isJsWs c = false) :
    collapseWs (c :: t) = c :: collapseWs t := by
  cases t with
  | nil => simp [collapseWs, hc]
  | cons c2 r => rw [collapseWs, if_neg (by simp [hc])]

theorem collapseNl_length_le (s : List Char) : (collapseNl s).length ≤ s.length := by
  induction s using collapseNl.induct with
  | case1 => simp [collapseNl]
  | case2 c h => simp [collapseNl, h]
  | case3 c h => simp [collapseNl, h]
  | case4 c1 c2 rest h1 h2 ih =>
    simp only [collapseNl, if_pos h1, if_pos h2] at ih ⊢
    simp at ih ⊢
    omega
  | case5 c1 c2 rest h1 h2 ih =>
    simp only [collapseNl, if_pos h1, if_neg h2] at ih ⊢
    simpa using ih
  | case6 c1 c2 rest h1 ih =>
    simp only [collapseNl, if_neg h1] at ih ⊢
    simpa using ih

theorem collapseWs_length_le (s : List Char) : (collapseWs s).length ≤ s.length := by
  induction s using collapseWs.induct with
  | case1 => simp [collapseWs]
  | case2 c h => simp [collapseWs, h]
  | case3 c h => simp [collapseWs, h]
  | case4 c1 c2 rest h1 h2 ih =>
    simp only [collapseWs, if_pos h1, if_pos h2] at ih ⊢
    simp at ih ⊢
    omega
  | case5 c1 c2 rest h1 h2 ih =>
    simp only [collapseWs, if_pos h1, if_neg h2] at ih ⊢
    simpa using ih
  | case6 c1 c2 rest h1 ih =>
    simp only [collapseWs, if_neg h1] at ih ⊢
    simpa using ih

theorem collapseNl_no_nl {s : List Char} : ∀ c ∈ collapseNl s, isNl c = false := by
  induction s using collapseNl.induct with
  | case1 => simp [collapseNl]
  | case2 c h =>
    simp only [collapseNl, if_pos h]
    intro c1 hc1
    simp at hc1
    subst hc1
    decide
  | case3 c h =>
    simp only [collapseNl, if_neg h]
    intro c1 hc1
    simp at hc1
    subst hc1
    simpa using h
  | case4 c1 c2 rest h1 h2 ih =>
    simpa only [collapseNl, if_pos h1, if_pos h2] using ih
  | case5 c1 c2 rest h1 h2 ih =>
    simp only [collapseNl, if_pos h1, if_neg h2]
    intro c hc
    rcases List.mem_cons.mp hc with h | h
    · subst h; decide
    · exact ih c h
  | case6 c1 c2 rest h1 ih =>
    simp only [collapseNl, if_neg h1]
    intro c hc
    rcases List.mem_cons.mp hc with h | h
    · subst h; simpa using h1
    · exact ih c h

theorem collapseNl_eq_self {s : List Char} (h : ∀ c ∈ s, isNl c = false) :
    collapseNl s = s := by
  induction s with
  | nil => simp [collapseNl]
  | cons c t ih =>
    rw [collapseNl_cons (h c (by simp))]
    rw [ih (fun c hc => h c (by simp [hc]))]

theorem filter_dropWhile_not_ws (l : List Char) :
    (List.dropWhile isJsWs l).filter (fun c => !isJsWs c) =
      l.filter (fun c => !isJsWs c) := by
  induction l with
  | nil => simp
  | cons a as ih =>
    by_cases ha : isJsWs a
    · rw [List.dropWhile_cons, if_pos (by simp [ha])]
      rw [ih, List.filter_cons, if_neg (by simp [ha])]
    · rw [List.dropWhile_cons, if_neg (by simpa using ha)]

theorem filter_jsTrim (s : List Char) :
    (jsTrim s).filter (fun c => !isJsWs c) = s.filter (fun c => !isJsWs c) := by
  unfold jsTrim List.rdropWhile
  rw [List.filter_reverse, filter_dropWhile_not_ws, List.filter_reverse,
    List.reverse_reverse, filter_dropWhile_not_ws]

theorem ws_of_nl {c : Char} (h : isNl c = true) : isJsWs c = true := by
  simp [isNl] at h
  rcases h with h | h <;> simp [h, isJsWs]

theorem filter_collapseNl (s : List Char) :
    (collapseNl s).filter (fun c => !isJsWs c) = s.filter (fun c => !isJsWs c) := by
  have hsp : isJsWs ' ' = true := by decide
  induction s using collapseNl.induct with
  | case1 => simp [collapseNl]
  | case2 c h =>
    simp only [collapseNl, if_pos h]
    simp [List.filter_cons, ws_of_nl h, hsp]
  | case3 c h =>
    simp only [collapseNl, if_neg h]
  | case4 c1 c2 rest h1 h2 ih =>
    simp only [collapseNl, if_pos h1, if_pos h2]
    simp [List.filter_cons, ws_of_nl h1, ih]
  | case5 c1 c2 rest h1 h2 ih =>
    simp only [collapseNl, if_pos h1, if_neg h2]
    simp [List.filter_cons, ws_of_nl h1, hsp, ih]
  | case6 c1 c2 rest h1 ih =>
    simp only [collapseNl, if_neg h1]
    simp [List.filter_cons, ih]

theorem filter_sanitize (s : List Char) :
    (sanitizeForTanaPaste s).filter (fun c => !isJsWs c) =
      s.filter (fun c => !isJsWs c) := by
  unfold sanitizeForTanaPaste
  rw [filter_jsTrim, filter_collapseNl]

theorem sanitize_length_le (s : List Char) :
    (sanitizeForTanaPaste s).length ≤ s.length :=
  le_trans (jsTrim_length_le _) (collapseNl_length_le s)

theorem sanitize_ne_nil {c : Char} {t : List Char} (hc : isJsWs c = false) :
    sanitizeForTanaPaste (c :: t) ≠ [] := by
  unfold sanitizeForTanaPaste
  rw [collapseNl_cons (not_nl_of_not_ws hc)]
  exact jsTrim_ne_nil hc

theorem cleanText_ne_nil {c : Char} {t : List Char} (hc : isJsWs c = false) :
    cleanText (c :: t) ≠ [] := by
  unfold cleanText
  rw [collapseWs_cons hc]
  exact jsTrim_ne_nil hc

/-! ### Properties of the break-point search and the chunk loop -/

theorem jsLastIndexOfAux_le (s pat : List Char) :
    ∀ i, jsLastIndexOfAux s pat i ≤ (i : Int) := by
  intro i
  induction i with
  | zero =>
    rw [jsLastIndexOfAux]
    split
    · exact le_refl _
    · decide
  | succ i ih =>
    rw [jsLastIndexOfAux]
    split
    · simp
    · calc jsLastIndexOfAux s pat i ≤ (i : Int) := ih
        _ ≤ ((i + 1 : Nat) : Int) := by simp

theorem jsLastIndexOf_le (s pat : List Char) (i : Nat) :
    jsLastIndexOf s pat i ≤ (i : Int) := by
  unfold jsLastIndexOf
  calc jsLastIndexOfAux s pat (min i s.length) ≤ ((min i s.length : Nat) : Int) :=
      jsLastIndexOfAux_le s pat _
    _ ≤ (i : Int) := by
      have := Nat.min_le_left i s.length
      omega

theorem findBreakPoint_le (text : List Char) (L : Nat) :
    findBreakPoint text L ≤ L + 1 := by
  have b1 := jsLastIndexOf_le text ['\n', '\n'] L
  have b2 := jsLastIndexOf_le text ['\n'] L
  have b3 := jsLastIndexOf_le text ['.', ' '] L
  have b4 := jsLastIndexOf_le text ['!', ' '] L
  have b5 := jsLastIndexOf_le text ['?', ' '] L
  have b6 := jsLastIndexOf_le text [' '] L
  simp only [findBreakPoint]
  split_ifs with h1 h2 h3 h4 h5 h6 <;> omega

theorem findBreakPoint_pos (text : List Char) {L : Nat} (hL : 1 ≤ L) :
    1 ≤ findBreakPoint text L := by
  simp only [findBreakPoint]
  split_ifs with h1 h2 h3 h4 h5 h6 <;> omega

theorem jsTrim_cons_head {c : Char} {x : List Char} (hc : isJsWs c = false) :
    ∃ y, jsTrim (c :: x) = c :: y := by
  have hne := jsTrim_ne_nil (t := x) hc
  cases h : jsTrim (c :: x) with
  | nil => exact absurd h hne
  | cons a y =>
    refine ⟨y, ?_⟩
    have hpre : List.IsPrefix (jsTrim (c :: x)) (c :: x) := by
      unfold jsTrim
      rw [List.dropWhile_cons, if_neg (by simp [hc])]
      exact List.rdropWhile_prefix isJsWs (c :: x)
    rw [h] at hpre
    obtain ⟨r, hr⟩ := hpre
    rw [List.cons_append] at hr
    injection hr with hac hrest
    rw [hac]

theorem sanitize_jsTrim_cons_ne_nil {c : Char} {x : List Char}
    (hc : isJsWs c = false) : sanitizeForTanaPaste (jsTrim (c :: x)) ≠ [] := by
  obtain ⟨y, hy⟩ := jsTrim_cons_head (x := x) hc
  rw [hy]
  exact sanitize_ne_nil hc

theorem chunkGo_bounds {L : Nat} (hL : 1 ≤ L) :
    ∀ (fuel : Nat) (remaining : List Char), jsTrim remaining = remaining →
      ∀ c ∈ chunkGo L fuel remaining, c.length ≤ L + 1 ∧ c ≠ [] := by
  intro fuel
  induction fuel with
  | zero =>
    intro r _ c hc
    simp [chunkGo] at hc
  | succ fuel ih =>
    intro r hr c hc
    by_cases h0 : r.length = 0
    · rw [chunkGo, if_pos h0] at hc
      simp at hc
    · obtain ⟨ch, t, rfl⟩ : ∃ ch t, r = ch :: t := by
        cases r with
        | nil => simp at h0
        | cons ch t => exact ⟨ch, t, rfl⟩
      have hch : isJsWs ch = false := jsTrim_head_false (by rw [hr])
      by_cases hle : (ch :: t).length ≤ L
      · rw [chunkGo, if_neg h0, if_pos hle] at hc
        simp at hc
        subst hc
        refine ⟨le_trans (sanitize_length_le _) (by omega), sanitize_ne_nil hch⟩
      · rw [chunkGo, if_neg h0, if_neg hle] at hc
        rcases List.mem_cons.mp hc with hc | hc
        · subst hc
          constructor
          · calc (sanitizeForTanaPaste (jsTrim ((ch :: t).take (findBreakPoint (ch :: t) L)))).length
                ≤ (jsTrim ((ch :: t).take (findBreakPoint (ch :: t) L))).length :=
                  sanitize_length_le _
              _ ≤ ((ch :: t).take (findBreakPoint (ch :: t) L)).length := jsTrim_length_le _
              _ ≤ findBreakPoint (ch :: t) L := by
                  rw [List.length_take]
                  exact Nat.min_le_left _ _
              _ ≤ L + 1 := findBreakPoint_le _ L
          · have hbp1 : 1 ≤ findBreakPoint (ch :: t) L := findBreakPoint_pos _ hL
            have htake : (ch :: t).take (findBreakPoint (ch :: t) L) =
                ch :: t.take (findBreakPoint (ch :: t) L - 1) := by
              cases hbp : findBreakPoint (ch :: t) L with
              | zero => omega
              | succ k => simp [List.take]
            rw [htake]
            exact sanitize_jsTrim_cons_ne_nil hch
        · exact ih (jsTrim ((ch :: t).drop (findBreakPoint (ch :: t) L)))
            (jsTrim_idem _) c hc

theorem chunkGo_filter {L : Nat} (hL : 1 ≤ L) :
    ∀ (fuel : Nat) (r : List Char), r.length < fuel →
      ((chunkGo L fuel r).flatten).filter (fun c => !isJsWs c) =
        r.filter (fun c => !isJsWs c) := by
  intro fuel
  induction fuel with
  | zero => omega
  | succ fuel ih =>
    intro r hfuel
    by_cases h0 : r.length = 0
    · rw [List.length_eq_zero] at h0
      subst h0
      simp [chunkGo]
    · by_cases hle : r.length ≤ L
      · rw [chunkGo, if_neg h0, if_pos hle]
        simp [filter_sanitize]
      · rw [chunkGo, if_neg h0, if_neg hle]
        rw [List.flatten_cons, List.filter_append]
        rw [filter_sanitize, filter_jsTrim]
        have hbp1 : 1 ≤ findBreakPoint r L := findBreakPoint_pos _ hL
        have hih := ih (jsTrim (r.drop (findBreakPoint r L)))
          (by
            have h1 := jsTrim_length_le (r.drop (findBreakPoint r L))
            have h2 : (r.drop (findBreakPoint r L)).length =
                r.length - findBreakPoint r L := List.length_drop _ _
            omega)
        rw [hih, filter_jsTrim, ← List.filter_append, List.take_append_drop]

theorem chunkGo_fuel_eq {L : Nat} :
    ∀ (fuel1 : Nat) {fuel2 : Nat} {r : List Char},
      1 ≤ L → r.length < fuel1 → r.length < fuel2 →
      chunkGo L fuel1 r = chunkGo L fuel2 r := by
  intro fuel1
  induction fuel1 with
  | zero => omega
  | succ f ih =>
    intro fuel2 r hL h1 h2
    cases fuel2 with
    | zero => omega
    | succ g =>
      by_cases h0 : r.length = 0
      · rw [chunkGo, chunkGo, if_pos h0, if_pos h0]
      · by_cases hle : r.length ≤ L
        · rw [chunkGo, chunkGo, if_neg h0, if_neg h0, if_pos hle, if_pos hle]
        · rw [chunkGo, chunkGo, if_neg h0, if_neg h0, if_neg hle, if_neg hle]
          have hbp1 : 1 ≤ findBreakPoint r L := findBreakPoint_pos _ hL
          have hlen : (jsTrim (r.drop (findBreakPoint r L))).length < f ∧
              (jsTrim (r.drop (findBreakPoint r L))).length < g := by
            have ha := jsTrim_length_le (r.drop (findBreakPoint r L))
            have hb : (r.drop (findBreakPoint r L)).length =
                r.length - findBreakPoint r L := List.length_drop _ _
            omega
          rw [ih hL hlen.1 hlen.2]

theorem strStarts_subset {p s : List Char} (h : strStarts p s = true) :
    ∀ c ∈ p, c ∈ s := by
  induction p generalizing s with
  | nil => simp
  | cons p1 ps ih =>
    cases s with
    | nil => simp [strStarts] at h
    | cons c cs =>
      rw [strStarts] at h
      simp only [Bool.decide_and, Bool.and_eq_true, decide_eq_true_eq] at h
      intro a ha
      rcases List.mem_cons.mp ha with ha | ha
      · subst ha
        rw [h.1]
        exact List.mem_cons_self _ _
      · exact List.mem_cons_of_mem _ (ih h.2 a ha)

theorem jsLastIndexOfAux_eq_neg {s pat : List Char} {w : Char} (hw : w ∈ pat)
    (hs : w ∉ s) : ∀ i, jsLastIndexOfAux s pat i = -1 := by
  intro i
  induction i with
  | zero =>
    rw [jsLastIndexOfAux]
    rw [if_neg]
    intro h
    exact hs (strStarts_subset h w hw)
  | succ i ih =>
    rw [jsLastIndexOfAux]
    rw [if_neg, ih]
    intro h
    exact hs (List.drop_subset _ _ (strStarts_subset h w hw))

theorem findBreakPoint_hard {text : List Char} (L : Nat)
    (hws : ∀ c ∈ text, isJsWs c = false) : findBreakPoint text L = L := by
  have hnl : '\n' ∉ text := fun h => absurd (hws '\n' h) (by decide)
  have hsp : ' ' ∉ text := fun h => absurd (hws ' ' h) (by decide)
  have e1 : jsLastIndexOf text ['\n', '\n'] L = -1 :=
    jsLastIndexOfAux_eq_neg (by simp) hnl _
  have e2 : jsLastIndexOf text ['\n'] L = -1 :=
    jsLastIndexOfAux_eq_neg (by simp) hnl _
  have e3 : jsLastIndexOf text ['.', ' '] L = -1 :=
    jsLastIndexOfAux_eq_neg (by simp) hsp _
  have e4 : jsLastIndexOf text ['!', ' '] L = -1 :=
    jsLastIndexOfAux_eq_neg (by simp) hsp _
  have e5 : jsLastIndexOf text ['?', ' '] L = -1 :=
    jsLastIndexOfAux_eq_neg (by simp) hsp _
  have e6 : jsLastIndexOf text [' '] L = -1 :=
    jsLastIndexOfAux_eq_neg (by simp) hsp _
  simp only [findBreakPoint, e1, e2, e3, e4, e5, e6]
  split_ifs with h1 <;> omega

/-! ### The claims about the content chunker -/

/-- Counterexample to claim C1 as stated: with `S = "  ab. cd"` and `L = 2`
the chunker emits the empty chunk `""` (the leading whitespace of the first
hard-cut slice trims away) and the chunk `"ab."` of length `L + 1 = 3` (the
sentence-break branch returns `lastIndexOf('. ', L) + 1`, which can exceed
`L`), so is not the case that every chunk has length at most `L` and no
chunk is empty. -/
theorem claim1_counterexample :
    chunkContent ("  ab. cd".data) 2 = [[], ("ab.".data), ("cd".data)] ∧
      ¬ (∀ c ∈ chunkContent ("  ab. cd".data) 2, c.length ≤ 2 ∧ c ≠ []) := by
  refine ⟨by decide, ?_⟩
  decide

/-- Claim C1, amended as the counterexample forces: for every bound `L ≥ 1`,
every chunk of `chunkContent S L` has length at most `L + 1` (the
sentence-break branch can overshoot the bound by exactly one character), and
when the input is its own trim (as every `buildClip` call site guarantees,
since the argument is always an output of `sanitizeForTanaPaste`) no chunk
is the empty string. -/
theorem claim1_chunk_bounds (S : List Char) (L : Nat) (hL : 1 ≤ L)
    (hS : jsTrim S = S) :
    ∀ c ∈ chunkContent S L, c.length ≤ L + 1 ∧ c ≠ [] :=
  chunkGo_bounds hL (S.length + 1) S hS

/-- Witness for `claim1_chunk_bounds` at `S = "ab. cd"`, `L = 2`, specialised
to the member chunk `"ab."`. -/
theorem claim1_chunk_bounds_witness :
    ("ab.".data).length ≤ 2 + 1 ∧ ("ab.".data) ≠ [] :=
  claim1_chunk_bounds ("ab. cd".data) 2 (by decide) (by decide)
    ("ab.".data) (by decide)

/-- Counterexample to claim C3 as stated: chunking drops the separator
character chosen as break point, so concatenating the chunks of
`chunk("aaa bbb", 3)` and normalising whitespace yields `"aaabbb"`, not the
whitespace-normalised input `"aaa bbb"`. -/
theorem claim3_counterexample :
    chunkContent ("aaa bbb".data) 3 = [("aaa".data), ("bbb".data)] ∧
      cleanText (List.flatten (chunkContent ("aaa bbb".data) 3)) ≠
        cleanText ("aaa bbb".data) := by
  refine ⟨by decide, ?_⟩
  decide

/-- Claim C3, amended as the counterexample forces: chunking loses no
non-whitespace character and duplicates none — the concatenation of the
chunks of `chunkContent S L` in order agrees with `S` after discarding all
whitespace (whitespace at the chosen break points, however, is consumed, so
the full whitespace-normalised reconstruction claimed originally fails). -/
theorem claim3_no_char_loss (S : List Char) (L : Nat) (hL : 1 ≤ L) :
    (List.flatten (chunkContent S L)).filter (fun c => !isJsWs c) =
      S.filter (fun c => !isJsWs c) :=
  chunkGo_filter hL (S.length + 1) S (by omega)

/-- Witness for `claim3_no_char_loss` at `S = "ab cd"`, `L = 2`. -/
theorem claim3_no_char_loss_witness :
    (List.flatten (chunkContent ("ab cd".data) 2)).filter (fun c => !isJsWs c) =
      ("ab cd".data).filter (fun c => !isJsWs c) :=
  claim3_no_char_loss ("ab cd".data) 2 (by decide)

/-- Claim C4: for every string `S` and bound `L ≥ 1` the chunking loop
terminates.  Formally: (1) the fuelled loop is already stable at
`S.length + 1` iterations — any larger fuel computes the same chunk list,
i.e. the loop reaches the empty remainder; (2) each loop iteration strictly
decreases the length of the remaining text (every accepted break point is
positive); and (3) on text with no whitespace at all — no natural boundary —
the hard-cut path is taken and the break point is exactly `L`. -/
theorem claim4_termination (S : List Char) (L : Nat) (hL : 1 ≤ L) :
    (∀ fuel, S.length < fuel → chunkGo L fuel S = chunkContent S L) ∧
      (∀ r : List Char, L < r.length →
        (jsTrim (r.drop (findBreakPoint r L))).length < r.length) ∧
      (∀ r : List Char, (∀ c ∈ r, isJsWs c = false) →
        findBreakPoint r L = L) := by
  refine ⟨?_, ?_, ?_⟩
  · intro fuel hfuel
    exact chunkGo_fuel_eq fuel hL hfuel (by omega)
  · intro r hr
    have hbp := findBreakPoint_pos r hL
    have h1 := jsTrim_length_le (r.drop (findBreakPoint r L))
    have h2 : (r.drop (findBreakPoint r L)).length =
        r.length - findBreakPoint r L := List.length_drop _ _
    omega
  · intro r hws
    exact findBreakPoint_hard L hws

/-- Witness for `claim4_termination` at `S = "abcd"`, `L = 1`: runs the loop
with surplus fuel and at the stable fuel and applies part (1). -/
theorem claim4_termination_witness :
    chunkGo 1 9 ("abcd".data) = chunkContent ("abcd".data) 1 :=
  (claim4_termination ("abcd".data) 1 (by decide)).1 9 (by decide)

/-! ### The claims about the author parser and the sanitiser -/

theorem jsTrim_eq_nil_of_ws {s : List Char} (h : ∀ c ∈ s, isJsWs c = true) :
    jsTrim s = [] := by
  unfold jsTrim
  rw [List.dropWhile_eq_nil_iff.mpr (fun x hx => by simp [h x hx])]
  simp

/-- Claim C5: `parseAuthors` splits on commas after normalising the
connectives `and` (case-insensitive, whitespace-delimited) and `&` (optional
surrounding whitespace) to commas, trims every piece and drops the empty
ones; the three specified examples hold, every empty or whitespace-only
input yields the empty list, and every returned name is non-empty and
trimmed. -/
theorem claim5_parse_authors :
    parseAuthors ("Jane Doe, John Smith and Alex Lee".data) =
        [("Jane Doe".data), ("John Smith".data), ("Alex Lee".data)] ∧
      parseAuthors ("A & B".data) = [("A".data), ("B".data)] ∧
      parseAuthors [] = [] ∧
      (∀ s : List Char, (∀ c ∈ s, isJsWs c = true) → parseAuthors s = []) ∧
      (∀ s : List Char, ∀ a ∈ parseAuthors s, 0 < a.length ∧ jsTrim a = a) := by
  refine ⟨by decide, by decide, by decide, ?_, ?_⟩
  · intro s hs
    simp only [parseAuthors]
    rw [jsTrim_eq_nil_of_ws hs]
    decide
  · intro s a ha
    simp only [parseAuthors] at ha
    rw [List.mem_filter] at ha
    obtain ⟨ham, hlen⟩ := ha
    rw [List.mem_map] at ham
    obtain ⟨b, _, rfl⟩ := ham
    exact ⟨by simpa using hlen, jsTrim_idem b⟩

/-- Witness for `claim5_parse_authors`: the whitespace-only clause applied
at the concrete input `"  "`. -/
theorem claim5_parse_authors_witness : parseAuthors ("  ".data) = [] :=
  claim5_parse_authors.2.2.2.1 ("  ".data) (by decide)

/-- Claim C10: the sanitiser applied to every emitted free-text value is
idempotent, its output contains no carriage return and no line feed, its
output carries no leading or trailing whitespace (it is its own trim), and
`TanaClient.sanitizeNodeName` is the same function as
`TanaPasteBuilder.sanitizeForTanaPaste`. -/
theorem claim10_sanitize_idem :
    (∀ s : List Char,
        sanitizeForTanaPaste (sanitizeForTanaPaste s) = sanitizeForTanaPaste s) ∧
      (∀ s : List Char, ∀ c ∈ sanitizeForTanaPaste s, c ≠ '\r' ∧ c ≠ '\n') ∧
      (∀ s : List Char, jsTrim (sanitizeForTanaPaste s) = sanitizeForTanaPaste s) ∧
      (∀ s : List Char, sanitizeNodeName s = sanitizeForTanaPaste s) := by
  have hmem : ∀ s : List Char, ∀ c ∈ sanitizeForTanaPaste s, isNl c = false := by
    intro s c hc
    exact collapseNl_no_nl c (mem_of_mem_jsTrim hc)
  refine ⟨?_, ?_, ?_, fun s => rfl⟩
  · intro s
    show jsTrim (collapseNl (sanitizeForTanaPaste s)) = sanitizeForTanaPaste s
    rw [collapseNl_eq_self (hmem s)]
    exact jsTrim_idem _
  · intro s c hc
    have h := hmem s c hc
    simp [isNl] at h
    exact h
  · intro s
    exact jsTrim_idem _

/-- Witness for `claim10_sanitize_idem`: idempotence applied at the concrete
input `"a\r\nb"`. -/
theorem claim10_sanitize_idem_witness :
    sanitizeForTanaPaste (sanitizeForTanaPaste ("a\r\nb".data)) =
      sanitizeForTanaPaste ("a\r\nb".data) :=
  claim10_sanitize_idem.1 ("a\r\nb".data)

/-! ### The claims about the output formatter -/

theorem strStarts_self_append (p q : List Char) : strStarts p (p ++ q) = true := by
  induction p with
  | nil => rw [strStarts]
  | cons a ps ih => simpa [strStarts] using ih

/-- Claim C7: with reference mode disabled (no tag name) `formatAuthorValue`
emits the parsed author names (or the raw author string when parsing finds
none) as plain sanitised text with no tagged-entity construct, and with
reference mode enabled under tag `person` it wraps every parsed name as
`[[name #[[person]]]]`; accordingly `buildClip` on a two-author clip emits
plain `- A` / `- B` child lines when disabled and `[[A #[[person]]]]` /
`[[B #[[person]]]]` lines when enabled. -/
theorem claim7_author_reference_mode :
    (∀ s : List Char, formatAuthorValue s none =
      (match parseAuthors s with
       | [] => Sum.inl (sanitizeForTanaPaste s)
       | [a] => Sum.inl (sanitizeForTanaPaste a)
       | authors => Sum.inr (authors.map sanitizeForTanaPaste))) ∧
    (∀ s : List Char, formatAuthorValue s (some ("person".data)) =
      (match parseAuthors s with
       | [] => Sum.inl (sanitizeForTanaPaste s)
       | [a] => Sum.inl (("[[".data) ++ sanitizeForTanaPaste a ++ (" #[[".data) ++
           ("person".data) ++ ("]]]]".data))
       | authors => Sum.inr (authors.map (fun a =>
           ("[[".data) ++ sanitizeForTanaPaste a ++ (" #[[".data) ++
             ("person".data) ++ ("]]]]".data))))) ∧
    buildClipLines (authorProbeClip ("plain".data) none) =
      [("%%tana%%".data), ("- T".data), ("  - Author::".data),
        ("    - A".data), ("    - B".data)] ∧
    buildClipLines (authorProbeClip ("reference".data) (some ("person".data))) =
      [("%%tana%%".data), ("- T".data), ("  - Author::".data),
        ("    - [[A #[[person]]]]".data), ("    - [[B #[[person]]]]".data)] := by
  refine ⟨?_, ?_, by decide, by decide⟩
  · intro s
    simp only [formatAuthorValue, otruthy]
    cases h : parseAuthors s with
    | nil => simp
    | cons a t =>
      cases t with
      | nil => simp
      | cons b t2 => simp
  · intro s
    simp only [formatAuthorValue, otruthy]
    cases h : parseAuthors s with
    | nil => simp
    | cons a t =>
      cases t with
      | nil => simp
      | cons b t2 => simp

/-- Witness for `claim7_author_reference_mode`: the disabled-mode clause
applied at the concrete author string `"A, B"`. -/
theorem claim7_author_reference_mode_witness :
    formatAuthorValue ("A, B".data) none =
      (match parseAuthors ("A, B".data) with
       | [] => Sum.inl (sanitizeForTanaPaste ("A, B".data))
       | [a] => Sum.inl (sanitizeForTanaPaste a)
       | authors => Sum.inr (authors.map sanitizeForTanaPaste)) :=
  claim7_author_reference_mode.1 ("A, B".data)

/-- Claim C8: when the published-date value parses, the output of the date
probe clip contains exactly one date line holding the single normalized
token `[[date:YYYY-MM-DD]]`; when it does not parse, the date field is
omitted from the output entirely (and the builder is a total function, so
no error is raised either way). -/
theorem claim8_date_field (pd : List Char) (hpd : pd ≠ []) :
    (buildClipLines (dateProbeClip pd) =
      ("%%tana%%".data) :: ("- T".data) ::
        (match formatDateValue pd with
         | some v => [("  - Date:: ".data) ++ v]
         | none => [])) ∧
    ((buildClipLines (dateProbeClip pd)).filter
        (fun line => strStarts (("  - Date::".data)) line)).length =
      (if (formatDateValue pd).isSome then 1 else 0) ∧
    (∀ v, formatDateValue pd = some v →
      ∃ iso, v = ("[[date:".data) ++ iso ++ ("]]".data) ∧ jsParseDate pd = some iso) := by
  have hpd' : otruthy (some pd) = true := by
    simpa [otruthy] using hpd
  have hline : buildClipLines (dateProbeClip pd) =
      ("%%tana%%".data) :: ("- T".data) ::
        (match formatDateValue pd with
         | some v => [("  - Date:: ".data) ++ v]
         | none => []) := by
    simp only [buildClipLines, dateProbeClip, authorFieldLines, urlFieldLines,
      dateFieldLines, pubFieldLines, contentLines, otruthy, hpd']
    cases h : formatDateValue pd with
    | none =>
      simp [h, hpd]
      decide
    | some v =>
      simp [h, hpd]
      decide
  refine ⟨hline, ?_, ?_⟩
  · rw [hline]
    have c1 : strStarts (("  - Date::".data)) (("%%tana%%".data)) = false := by decide
    have c2 : strStarts (("  - Date::".data)) (("- T".data)) = false := by decide
    cases h : formatDateValue pd with
    | none => simp [List.filter_cons, c1, c2, h]
    | some v =>
      have hstart : strStarts (("  - Date::".data)) ((("  - Date:: ".data) ++ v)) = true := by
        have hsplit : (("  - Date:: ".data) ++ v) =
            ("  - Date::".data) ++ ((" ".data) ++ v) := by simp
        rw [hsplit]
        exact strStarts_self_append _ _
      simp [List.filter_cons, c1, c2, h]
      rw [if_pos (by simpa using hstart)]
      simp
  · intro v hv
    simp only [formatDateValue] at hv
    cases h : jsParseDate pd with
    | none => rw [h] at hv; simp at hv
    | some iso =>
      rw [h] at hv
      simp at hv
      exact ⟨iso, hv.symm, rfl⟩

/-- Witness for `claim8_date_field`: the date-line count clause applied at
the concrete parsable date `"2024-01-15"`. -/
theorem claim8_date_field_witness :
    ((buildClipLines (dateProbeClip ("2024-01-15".data))).filter
        (fun line => strStarts (("  - Date::".data)) line)).length =
      (if (formatDateValue ("2024-01-15".data)).isSome then 1 else 0) :=
  (claim8_date_field ("2024-01-15".data) (by decide)).2.1

/-! ### The claims about the metadata resolver -/

/-- Claim C6: for every document whose structured data is absent, whose
plain `author` meta tag is absent, and whose `article:author` meta tag holds
the URL `https://site.com/by/jane-doe` — the later probes are arbitrary, as
the fallback chain returns before consulting them — the resolved author is
`"Jane Doe"`: the URL-shaped value has a name recovered from the path
segment following the `by` marker, with the hyphenated slug capitalised. -/
theorem claim6_author_from_url (tc ra an bl ip : Option (List Char)) :
    extractAuthorFromUrl ("https://site.com/by/jane-doe".data) =
        some ("Jane Doe".data) ∧
      extractAuthor
        { jsonLdBlocks := [], metaAuthor := none,
          metaArticleAuthor := some ("https://site.com/by/jane-doe".data),
          twitterCreator := tc, relAuthorText := ra, authorNameText := an,
          bylineText := bl, itempropAuthorText := ip } = some ("Jane Doe".data) :=
  ⟨by decide, rfl⟩

/-- Witness for `claim6_author_from_url` with every remaining probe absent. -/
theorem claim6_author_from_url_witness :
    extractAuthor
      { jsonLdBlocks := [], metaAuthor := none,
        metaArticleAuthor := some ("https://site.com/by/jane-doe".data),
        twitterCreator := none, relAuthorText := none, authorNameText := none,
        bylineText := none, itempropAuthorText := none } = some ("Jane Doe".data) :=
  (claim6_author_from_url none none none none none).2

theorem pickTrimmed_last {l : List (Option (List Char))} {v : List Char}
    (hv : v ≠ []) : (pickTrimmed (l ++ [some v])).isSome = true := by
  induction l with
  | nil =>
    rw [List.nil_append, pickTrimmed]
    rw [if_pos (by simpa using hv)]
    rfl
  | cons o rest ih =>
    cases o with
    | none => rw [List.cons_append, pickTrimmed]; exact ih
    | some w =>
      rw [List.cons_append, pickTrimmed]
      by_cases hw : w.length ≠ 0
      · rw [if_pos hw]; rfl
      · rw [if_neg hw]; exact ih

/-- Counterexample to claim C9 as stated: on a document with no site-name
tag, no structured data and no application-name tag whose hostname is empty
(e.g. a `file:` page), the final fallback produces the empty string, which
is falsy, so `extractPublication` returns absent — resolution does not
always succeed. -/
theorem claim9_counterexample :
    extractPublication
      { ogSiteName := none, jsonLdBlocks := [], applicationName := none,
        hostname := [] } = none := by decide

/-- Claim C9, amended as the counterexample forces: publication resolution
succeeds on every document whose hostname, after stripping a leading
`www.`, is non-empty (the final fallback then yields a truthy value
whatever the earlier probes return). -/
theorem claim9_publication_fallback (doc : PubDoc)
    (h : stripWww doc.hostname ≠ []) :
    (extractPublication doc).isSome = true := by
  unfold extractPublication
  have hsplit :
      [doc.ogSiteName, publisherFromJsonLd doc.jsonLdBlocks, doc.applicationName,
        some (stripWww doc.hostname)] =
      [doc.ogSiteName, publisherFromJsonLd doc.jsonLdBlocks, doc.applicationName] ++
        [some (stripWww doc.hostname)] := rfl
  rw [hsplit]
  exact pickTrimmed_last h

/-- Witness for `claim9_publication_fallback` at a concrete document with
only a hostname. -/
theorem claim9_publication_fallback_witness :
    (extractPublication
      { ogSiteName := none, jsonLdBlocks := [], applicationName := none,
        hostname := ("www.example.com".data) }).isSome = true :=
  claim9_publication_fallback _ (by decide)

/-! ### The claims about paragraph extraction -/

theorem filterMap_ite_sublist {α β : Type} (l : List α) (p : α → Prop)
    [DecidablePred p] (g : α → β) :
    List.Sublist (l.filterMap (fun x => if p x then some (g x) else none))
      (l.map g) := by
  induction l with
  | nil => simp
  | cons a t ih =>
    rw [List.filterMap_cons, List.map_cons]
    by_cases hp : p a
    · rw [if_pos hp]
      exact List.Sublist.cons₂ (g a) ih
    · rw [if_neg hp]
      exact List.Sublist.cons (g a) ih

theorem primaryParagraphs_mem {el : Dom} {b : List Char}
    (hb : b ∈ primaryParagraphs el) :
    ∃ tc ∈ paraTexts el, 10 < (jsTrim tc).length ∧ b = cleanText (jsTrim tc) := by
  simp only [primaryParagraphs] at hb
  rw [List.mem_filterMap] at hb
  obtain ⟨tc, htc, hsome⟩ := hb
  by_cases h : 10 < (jsTrim tc).length
  · rw [if_pos h] at hsome
    exact ⟨tc, htc, h, (Option.some.injEq _ _).mp hsome |>.symm⟩
  · rw [if_neg h] at hsome
    exact absurd hsome (by simp)

theorem cleanText_jsTrim_pos {tc : List Char} (h : 10 < (jsTrim tc).length) :
    0 < (cleanText (jsTrim tc)).length := by
  obtain ⟨ch, t, heq⟩ : ∃ ch t, jsTrim tc = ch :: t := by
    cases hcase : jsTrim tc with
    | nil => rw [hcase] at h; simp at h
    | cons ch t => exact ⟨ch, t, rfl⟩
  have hch : isJsWs ch = false := jsTrim_head_false heq
  rw [heq]
  have := cleanText_ne_nil (t := t) hch
  exact List.length_pos.mpr this

/-- Counterexample to claim C2 as stated: a paragraph whose raw text
`"a<18 spaces>b"` is 20 characters long passes the `> 10` length check, but
the emitted block is its whitespace-collapsed form `"a b"` of length 3 — the
threshold is checked before `cleanText` collapses inner whitespace, so a
returned block can be far shorter than 10 characters. -/
theorem claim2_counterexample :
    extractParagraphs
        (Dom.elem ("div".data)
          [Dom.elem ("p".data) [Dom.text ("a                  b".data)]]) =
      [("a b".data)] ∧
      ¬ (∀ b ∈ extractParagraphs
          (Dom.elem ("div".data)
            [Dom.elem ("p".data) [Dom.text ("a                  b".data)]]),
          10 < b.length) := by
  refine ⟨by decide, ?_⟩
  decide

/-- Claim C2, amended as the counterexample forces: every returned block is
non-empty (on the element-collection path the `> 10` threshold applies to
the trimmed text before whitespace collapsing, so the emitted block itself
can be 10 characters or shorter); blocks returned by the fallback text-walk
path do have length greater than 10; and blocks appear in document order —
the result is a sublist of the pre-order traversal of the collected
paragraph-like elements (primary path) or of the blank-line split of the
walked text (fallback path). -/
theorem claim2_blocks (el : Dom) :
    (∀ b ∈ extractParagraphs el, 0 < b.length) ∧
      (List.Sublist (extractParagraphs el)
          ((paraTexts el).map (fun tc => cleanText (jsTrim tc))) ∨
        List.Sublist (extractParagraphs el)
          (splitBlankLines (cleanHtmlToText el))) ∧
      (primaryParagraphs el = [] → ∀ b ∈ extractParagraphs el, 10 < b.length) := by
  by_cases hp : primaryParagraphs el = []
  · by_cases hf : (cleanHtmlToText el).length ≠ 0
    · have hext : extractParagraphs el =
          (splitBlankLines (cleanHtmlToText el)).filter
            (fun p => 10 < (jsTrim p).length) := by
        simp [extractParagraphs, hp, hf]
      have hmem : ∀ b ∈ extractParagraphs el, 10 < b.length := by
        intro b hb
        rw [hext, List.mem_filter] at hb
        have h1 : 10 < (jsTrim b).length := by simpa using hb.2
        have h2 := jsTrim_length_le b
        omega
      refine ⟨fun b hb => by have := hmem b hb; omega, ?_, fun _ => hmem⟩
      right
      rw [hext]
      exact List.filter_sublist _
    · have hext : extractParagraphs el = primaryParagraphs el := by
        push_neg at hf
        simp [extractParagraphs, hp, hf]
      rw [hext, hp]
      exact ⟨by simp, Or.inr (List.nil_sublist _), fun _ => by simp⟩
  · have hext : extractParagraphs el = primaryParagraphs el := by
      simp [extractParagraphs, hp]
    refine ⟨?_, ?_, fun h => absurd h hp⟩
    · intro b hb
      rw [hext] at hb
      obtain ⟨tc, _, hlen, rfl⟩ := primaryParagraphs_mem hb
      exact cleanText_jsTrim_pos hlen
    · left
      rw [hext]
      have : primaryParagraphs el =
          (paraTexts el).filterMap
            (fun tc => if 10 < (jsTrim tc).length then some (cleanText (jsTrim tc))
              else none) := rfl
      rw [this]
      exact filterMap_ite_sublist (paraTexts el)
        (fun tc => 10 < (jsTrim tc).length) (fun tc => cleanText (jsTrim tc))

/-- Witness for `claim2_blocks`: the non-emptiness clause applied to the
block extracted from a document with one long-enough paragraph. -/
theorem claim2_blocks_witness : 0 < ("hello world of lean".data).length :=
  (claim2_blocks
      (Dom.elem ("div".data)
        [Dom.elem ("p".data) [Dom.text ("hello world of lean".data)]])).1
    ("hello world of lean".data) (by decide)

end WebClipper
